/-
  Verification of the webm-pub relay.

  Shallow embedding of the Go sources:
    * `webm` package  — block decoding (`parseAsSimpleBlock`, `parseAsBlock`,
      `AsKeyBlock`),
    * `webmkeeper` package — the keeper (`newKeeper` for `New`,
      `WebmKeeper.next` for `Next`, `handleRandomAccessPoint`,
      `incTrackCount`, `bootstrap`),
    * `pubsub` package — the channel registry (`getPubCh`, `closePubCh`,
      `addSubCh`, `remSubCh`),
    * `main.go` / `httppubsub` — the subscriber open path (`onOpenGet`,
      `serveGet`).

  Bytes are modelled as `Nat` (a Go `byte` always holds a value `< 256`;
  the operations used here agree with the Go ones on that range).  Stateful
  Go methods become state-passing functions; a Go method that can return an
  error becomes a function returning the post-state together with an
  `Option String` (the Go receiver still exists after an error return, so
  the state is always produced).  Element serialization (`edtd.Elem`'s
  `WriteTo` / `Bytes`) is opaque: an element carries its payload bytes and
  its wire bytes as data.
-/
import Mathlib

namespace WebmPub

/-- An EBML element as produced by the `edtd` tokenizer: a name, a nesting
level, the raw payload bytes (`e.Bytes()`), and the exact wire serialization
(`e.WriteTo`). -/
structure Elem where
  name : String
  level : Nat
  payload : List Nat
  wire : List Nat
deriving DecidableEq, Repr

/-! ### EBML varints

Modelled from the spec: the `ebmlstream/varint` package is an external
dependency, not part of this repository.  Per the spec, the width of a
varint is determined by the position of the highest set bit of the leading
byte; that marker bit is stripped and the remaining bits, together with the
following `width − 1` bytes, form a big-endian unsigned integer.
`varintParse` returns the decoded value and the number of bytes consumed
(Go's `varint.Parse` plus `.Uint64()` and `.Size()`). -/

/-- Width in bytes of an EBML varint whose leading byte is `b`
(none when `b = 0`: no marker bit). -/
def varintWidth (b : Nat) : Option Nat :=
  if 128 ≤ b then some 1
  else if 64 ≤ b then some 2
  else if 32 ≤ b then some 3
  else if 16 ≤ b then some 4
  else if 8 ≤ b then some 5
  else if 4 ≤ b then some 6
  else if 2 ≤ b then some 7
  else if 1 ≤ b then some 8
  else none

/-- Modelled from the spec: parse an EBML varint from the front of `data`,
returning `(value, size)`. -/
def varintParse (data : List Nat) : Option (Nat × Nat) :=
  match data with
  | [] => none
  | b :: _ =>
    match varintWidth b with
    | none => none
    | some w =>
      if w ≤ data.length then
        let stripped := b - 2 ^ (8 - w)
        some (((data.take w).tail).foldl (fun acc x => acc * 256 + x) stripped, w)
      else none

/-- Go `int16(data[1]) | (int16(data[0]) << 8)`: the two bytes as a signed
big-endian 16-bit integer. -/
def timecodeOf (b0 b1 : Nat) : Int :=
  let u := (b0 % 256) * 256 + b1 % 256
  if u < 32768 then (u : Int) else (u : Int) - 65536

/-- Parsed form of a SimpleBlock payload (package `webm`). -/
structure SimpleBlock where
  trackNumber : Nat
  timecode : Int
  keyframe : Bool
  invisible : Bool
  discardable : Bool
  lacing : Nat
deriving DecidableEq, Repr

/-- `parseAsSimpleBlock` from package `webm`.  Out-of-range indexing in the
Go code (a panic on a short payload) is modelled as `none`, as is a varint
parse error. -/
def parseAsSimpleBlock (data : List Nat) : Option SimpleBlock :=
  match varintParse data with
  | none => none
  | some (trackNumber64, trackNumberSize) =>
    match data.drop trackNumberSize with
    | b0 :: b1 :: flags :: _ =>
      some { trackNumber := trackNumber64
             timecode := timecodeOf b0 b1
             keyframe := flags &&& 0x80 = 0x80
             invisible := flags &&& 0x08 = 0x08
             discardable := flags &&& 0x01 = 0x01
             lacing := (flags >>> 4) &&& 3 }
    | _ => none

/-- Parsed form of a Block payload (package `webm`). -/
structure Block where
  trackNumber : Nat
  timecode : Int
  keyframe : Bool
  invisible : Bool
  lacing : Nat
deriving DecidableEq, Repr

/-- The inner Xiph loop of `parseAsBlock`: consume bytes until one is
strictly less than 255 (`none` when the data runs out, a panic in Go). -/
def xiphSkipFrame : List Nat → Option (List Nat)
  | [] => none
  | b :: rest => if b < 255 then some rest else xiphSkipFrame rest

/-- The outer Xiph loop of `parseAsBlock`: one `xiphSkipFrame` per frame. -/
def xiphSkip : Nat → List Nat → Option (List Nat)
  | 0, data => some data
  | n + 1, data =>
    match xiphSkipFrame data with
    | none => none
    | some rest => xiphSkip n rest

/-- The EBML-lacing loop of `parseAsBlock`: skip one varint per frame. -/
def ebmlSkip : Nat → List Nat → Option (List Nat)
  | 0, data => some data
  | n + 1, data =>
    match varintParse data with
    | none => none
    | some (_, sz) => ebmlSkip n (data.drop sz)

/-- `parseAsBlock` from package `webm`.  Lacing modes are `None = 0`,
`Xiph = 1`, `FixedSize = 2`, `EBML = 3` (the Go `iota` values). -/
def parseAsBlock (data : List Nat) : Option Block :=
  match varintParse data with
  | none => none
  | some (trackNumber64, trackNumberSize) =>
    match data.drop trackNumberSize with
    | b0 :: b1 :: flags :: rest =>
      let lacing := (flags >>> 4) &&& 3
      let finish : List Nat → Option Block := fun d =>
        match d.get? 2 with
        | none => none
        | some k =>
          some { trackNumber := trackNumber64
                 timecode := timecodeOf b0 b1
                 keyframe := k &&& 0x01 = 0x00
                 invisible := flags &&& 0x08 = 0x08
                 lacing := lacing }
      if lacing > 0 then
        match rest with
        | [] => none
        | numLaceFrames :: rest2 =>
          if lacing = 1 then
            match xiphSkip numLaceFrames rest2 with
            | none => none
            | some d => finish d
          else if lacing = 3 then
            match ebmlSkip numLaceFrames rest2 with
            | none => none
            | some d => finish d
          else finish rest2
      else finish rest
    | _ => none

/-- `AsKeyBlock` from package `webm`: for a SimpleBlock or Block element,
the `(track number, keyframe)` pair from its payload; `(0, false)` for any
other element. -/
def AsKeyBlock (e : Elem) : Except String (Nat × Bool) :=
  if e.name = "SimpleBlock" then
    match parseAsSimpleBlock e.payload with
    | none => .error "malformed SimpleBlock"
    | some s => .ok (s.trackNumber, s.keyframe)
  else if e.name = "Block" then
    match parseAsBlock e.payload with
    | none => .error "malformed Block"
    | some b => .ok (b.trackNumber, b.keyframe)
  else .ok (0, false)

/-! ### The keeper (package `webmkeeper`)

The Go `WebmKeeper` holds two `bytes.Buffer`s, an `int` offset and two
length-2 arrays (`[2]byte` and `[2]bool`); the arrays are split into one
field per index.  The `edtd.Parser` field is not part of the state: the
element stream is passed to the operations explicitly. -/

structure WebmKeeper where
  header : List Nat
  body : List Nat
  lastCluster : Nat
  trackBlockCount0 : Nat
  trackBlockCount1 : Nat
  trackBlockKeyframe0 : Bool
  trackBlockKeyframe1 : Bool
deriving DecidableEq, Repr

/-- `resetTracking`: zero both block counters and clear both keyframe
flags. -/
def WebmKeeper.resetTracking (wk : WebmKeeper) : WebmKeeper :=
  { wk with trackBlockCount0 := 0, trackBlockCount1 := 0,
            trackBlockKeyframe0 := false, trackBlockKeyframe1 := false }

/-- `incTrackCount`: increment the block counter for index `i` (the
track number minus one) unless it already holds 255 (a Go `byte` caps
there; the guard prevents overflow). -/
def WebmKeeper.incTrackCount (wk : WebmKeeper) (i : Nat) : WebmKeeper :=
  if i = 0 then
    if wk.trackBlockCount0 < 255 then
      { wk with trackBlockCount0 := wk.trackBlockCount0 + 1 }
    else wk
  else
    if wk.trackBlockCount1 < 255 then
      { wk with trackBlockCount1 := wk.trackBlockCount1 + 1 }
    else wk

/-- `wk.trackBlockKeyframe[i] = true` for index `i`. -/
def WebmKeeper.setKeyframe (wk : WebmKeeper) (i : Nat) : WebmKeeper :=
  if i = 0 then { wk with trackBlockKeyframe0 := true }
  else { wk with trackBlockKeyframe1 := true }

/-- `handleRandomAccessPoint` from `webmkeeper`: run before the element is
appended to `body`.  Returns the post-state and an optional error (the Go
method mutates the receiver in place, so a state exists even on the error
path — and on that path no field has been written yet). -/
def handleRandomAccessPoint (wk : WebmKeeper) (el : Elem) : WebmKeeper × Option String :=
  if el.name = "Cluster" then
    ({ wk.resetTracking with lastCluster := wk.body.length }, none)
  else if el.name = "SimpleBlock" ∨ el.name = "Block" then
    match AsKeyBlock el with
    | .error e => (wk, some e)
    | .ok (trackNumber, keyframe) =>
      if trackNumber > 2 ∨ trackNumber < 1 then
        (wk, some "impossible track number")
      else
        let i := trackNumber - 1
        let wk1 := wk.incTrackCount i
        let wk2 := if keyframe then wk1.setKeyframe i else wk1
        if wk2.trackBlockCount0 = 1 ∧ wk2.trackBlockCount1 = 1 ∧
            wk2.trackBlockKeyframe0 = true ∧ wk2.trackBlockKeyframe1 = true then
          ({ wk2 with body := wk2.body.drop wk2.lastCluster, lastCluster := 0 }, none)
        else (wk2, none)
  else (wk, none)

/-- `Next` from `webmkeeper`, with the element pulled from the parser passed
in explicitly: apply the random-access-point rule, then append the element's
serialization to `body` and return it.  On error the body is untouched. -/
def WebmKeeper.next (wk : WebmKeeper) (el : Elem) : WebmKeeper × Except String (List Nat) :=
  match handleRandomAccessPoint wk el with
  | (wk', some e) => (wk', .error e)
  | (wk', none) => ({ wk' with body := wk'.body ++ el.wire }, .ok el.wire)

/-- `Bootstrap` from `webmkeeper`: the bytes written to a fresh subscriber —
`header` then the current `body`. -/
def WebmKeeper.bootstrap (wk : WebmKeeper) : List Nat :=
  wk.header ++ wk.body

/-- The loop of `webmkeeper.New`.  The element source is a list of tokens,
each either an element or an upstream error (`p.Next()` returns `io.EOF`
past the end of the stream; an exhausted list is that error).  Every element
before the first `Cluster` is serialized into `header`; the first `Cluster`
is serialized into `body` and the keeper is returned. -/
def newKeeperLoop (header : List Nat) : List (Except String Elem) → Except String WebmKeeper
  | [] => .error "EOF"
  | .error e :: _ => .error e
  | .ok el :: rest =>
    if el.name = "Cluster" then
      .ok { header := header, body := el.wire, lastCluster := 0,
            trackBlockCount0 := 0, trackBlockCount1 := 0,
            trackBlockKeyframe0 := false, trackBlockKeyframe1 := false }
    else newKeeperLoop (header ++ el.wire) rest

/-- `webmkeeper.New`: drive the source until the first `Cluster`. -/
def newKeeper (tokens : List (Except String Elem)) : Except String WebmKeeper :=
  newKeeperLoop [] tokens

/-- Repeated `Next` over a list of elements: the final keeper state together
with `.ok ()` when every call succeeded, or the state at the first error. -/
def runNext (wk : WebmKeeper) : List Elem → WebmKeeper × Except String Unit
  | [] => (wk, .ok ())
  | el :: rest =>
    match wk.next el with
    | (wk', .error e) => (wk', .error e)
    | (wk', .ok _) => runNext wk' rest

/-! ### The channel registry (package `pubsub`)

`PubSubMux.mux` maps a channel name to its `pubSub`; of a `pubSub` only the
`srcGotten` flag matters to the registry claims (the channels and the
spinning goroutine are concurrency plumbing).  A registry state is therefore
a partial map from channel name to its `srcGotten` flag. -/

def Mux : Type := String → Option Bool

/-- The empty registry (`NewPubSubMux`). -/
def emptyMux : Mux := fun _ => none

/-- `PubSubMux.GetPubCh`: create the `pubSub` when absent (fresh
`srcGotten = false`), report the old `srcGotten`, set it to `true`. -/
def getPubCh (m : Mux) (channel : String) : Mux × Bool :=
  let srcGotten :=
    match m channel with
    | none => false
    | some b => b
  (fun c => if c = channel then some true else m c, srcGotten)

/-- `PubSubMux.ClosePubCh`: delete the channel's `pubSub` when present and
report whether one existed. -/
def closePubCh (m : Mux) (channel : String) : Mux × Bool :=
  match m channel with
  | none => (m, false)
  | some _ => (fun c => if c = channel then none else m c, true)

/-- `PubSubMux.AddSubCh`: create the `pubSub` when absent (this does not
touch `srcGotten`). -/
def addSubCh (m : Mux) (channel : String) : Mux :=
  match m channel with
  | none => fun c => if c = channel then some false else m c
  | some _ => m

/-- `PubSubMux.RemSubCh`: never creates or removes a `pubSub`, so the
registry state is unchanged. -/
def remSubCh (m : Mux) (_channel : String) : Mux := m

/-- One registry operation. -/
inductive RegOp where
  | getPub (channel : String)
  | closePub (channel : String)
  | addSub (channel : String)
  | remSub (channel : String)

/-- Apply one registry operation to the state. -/
def applyOp (m : Mux) : RegOp → Mux
  | .getPub ch => (getPubCh m ch).1
  | .closePub ch => (closePubCh m ch).1
  | .addSub ch => addSubCh m ch
  | .remSub ch => remSubCh m ch

/-- Apply a sequence of registry operations, left to right. -/
def applyOps (m : Mux) : List RegOp → Mux
  | [] => m
  | op :: ops => applyOps (applyOp m op) ops

/-- Spec-side history predicate: starting from live-flag `b`, is there a
`getPub` on `ch` with no later `closePub` on `ch`? -/
def pubLiveAfter (ch : String) (b : Bool) : List RegOp → Bool
  | [] => b
  | .getPub c :: ops => pubLiveAfter ch (if c = ch then true else b) ops
  | .closePub c :: ops => pubLiveAfter ch (if c = ch then false else b) ops
  | .addSub _ :: ops => pubLiveAfter ch b ops
  | .remSub _ :: ops => pubLiveAfter ch b ops

/-! ### The subscriber open path (`main.go` and package `httppubsub`)

Only the GET branch up to the `bail` is modelled: `app.OnOpen` looks the
channel up in the keeper registry and, when it is missing, returns code 404
with body `"couldn't find stream " ++ path`; `ServeHTTP` then writes that
code and body and returns before `AddSubCh` runs. -/

/-- Outcome of a GET request: the status and body written by `bail` (status
0 meaning the request went on streaming), and whether a subscriber queue was
registered with the bus (`AddSubCh` reached). -/
structure GetOutcome where
  status : Nat
  respBody : String
  subscribed : Bool
deriving DecidableEq, Repr

/-- The GET case of `app.OnOpen` in `main.go`: returns
`(channel, code, body)`; the channel is the full request path. -/
def onOpenGet (keepers : String → Option WebmKeeper) (path : String) :
    String × Nat × String :=
  match keepers path with
  | none => (path, 404, "couldn't find stream " ++ path)
  | some _ => (path, 0, "")

/-- The GET flow of `HTTPPubSub.ServeHTTP` up to subscription: a non-zero
code from `OnOpen` is written out by `bail` and the request ends before the
subscriber queue is added. -/
def serveGet (keepers : String → Option WebmKeeper) (path : String) : GetOutcome :=
  let res := onOpenGet keepers path
  if res.2.1 ≠ 0 then
    { status := res.2.1, respBody := res.2.2, subscribed := false }
  else
    { status := 0, respBody := "", subscribed := true }

/-! ### Spec-side vocabulary

Definitions below follow the spec's words; they are compared with the
source-derived functions above by the theorems. -/

/-- The concatenation of the wire serializations of a list of elements. -/
def wireAll (els : List Elem) : List Nat :=
  (els.map Elem.wire).flatten

/-- Saturating counter with cap 255. -/
def satCount (n : Nat) : Nat := min n 255

/-- Whether `e` is a Block or SimpleBlock whose payload decodes to track
`t`.  (For any `t ≥ 1` this is false on non-block elements, whose
`AsKeyBlock` result is `(0, false)`.) -/
def isTrackBlock (t : Nat) (e : Elem) : Bool :=
  match AsKeyBlock e with
  | .ok (t', _) => t' == t
  | .error _ => false

/-- The keyframe flag `AsKeyBlock` extracts from `e` (false when it
errors). -/
def blockKeyframeOf (e : Elem) : Bool :=
  match AsKeyBlock e with
  | .ok (_, kf) => kf
  | .error _ => false

/-- Number of track-`t` blocks in a list of elements. -/
def countTrack (t : Nat) (els : List Elem) : Nat :=
  (els.filter (isTrackBlock t)).length

/-- Whether some track-`t` block in the list is a keyframe. -/
def hasKeyframe (t : Nat) (els : List Elem) : Bool :=
  els.any (fun e => isTrackBlock t e && blockKeyframeOf e)

/-- The elements belonging to the leading cluster of an element list: those
after the head, up to the next `Cluster`. -/
def headSpan (els : List Elem) : List Elem :=
  els.tail.takeWhile (fun e => !(e.name == "Cluster"))

/-- The first track-`t` block of the list exists and is a keyframe. -/
def firstTrackKeyframe (t : Nat) (els : List Elem) : Prop :=
  ∃ e, els.find? (isTrackBlock t) = some e ∧ blockKeyframeOf e = true

/-- Whether processing `el` in state `wk` confirms a random-access point
(the truncation branch of `handleRandomAccessPoint` fires). -/
def confirmsRAP (wk : WebmKeeper) (el : Elem) : Bool :=
  if el.name = "Cluster" then false
  else if el.name = "SimpleBlock" ∨ el.name = "Block" then
    match AsKeyBlock el with
    | .error _ => false
    | .ok (trackNumber, keyframe) =>
      if trackNumber > 2 ∨ trackNumber < 1 then false
      else
        let i := trackNumber - 1
        let wk1 := wk.incTrackCount i
        let wk2 := if keyframe then wk1.setKeyframe i else wk1
        decide (wk2.trackBlockCount0 = 1 ∧ wk2.trackBlockCount1 = 1 ∧
          wk2.trackBlockKeyframe0 = true ∧ wk2.trackBlockKeyframe1 = true)
  else false

/-- Whether some step of a run of `Next` calls confirms a random-access
point (the run is cut short at the first error). -/
def runConfirms (wk : WebmKeeper) : List Elem → Bool
  | [] => false
  | el :: rest =>
    match wk.next el with
    | (wk', .ok _) => confirmsRAP wk el || runConfirms wk' rest
    | (_, .error _) => confirmsRAP wk el

/-- Spec-side stripping of a Block payload's prelude, following the spec's
words: strip the track-number varint, the 2-byte timecode and the flags
byte; when the lacing mode from the flags byte is not `None`, also strip
one frame-count byte and then the lacing preambles (Xiph: per frame, bytes
until one is strictly below 255; EBML: per frame, one varint; FixedSize:
nothing).  Returns the remaining payload. -/
def stripBlockPrelude (data : List Nat) : Option (List Nat) :=
  match varintParse data with
  | none => none
  | some (_, sz) =>
    match data.drop sz with
    | _ :: _ :: flags :: rest =>
      let lacing := (flags >>> 4) &&& 3
      if lacing = 0 then some rest
      else
        match rest with
        | [] => none
        | numFrames :: rest2 =>
          if lacing = 1 then xiphSkip numFrames rest2
          else if lacing = 3 then ebmlSkip numFrames rest2
          else some rest2
    | _ => none

/-- The keeper's body-structure invariant, the heart of bootstrap validity.
`body` is the concatenation of the serializations of `front ++ c :: tail`,
where `c` is the most recent `Cluster`, `front` (when nonempty) also starts
at a `Cluster`, `tail` holds the elements appended since `c`,
`last_cluster_offset` points at `c`, the counters hold the saturated
per-track block counts of `tail` and the flags record whether `tail` holds
a per-track keyframe.  Once a random-access point has been confirmed
(`conf`), the leading cluster's span contains, for each track, a first
block which is a keyframe. -/
def KeeperInv (conf : Bool) (wk : WebmKeeper) : Prop :=
  ∃ front c tail,
    c.name = "Cluster" ∧
    (front = [] ∨ ∃ c0 f0, front = c0 :: f0 ∧ c0.name = "Cluster") ∧
    (∀ e ∈ tail, e.name ≠ "Cluster") ∧
    wk.body = wireAll front ++ c.wire ++ wireAll tail ∧
    wk.lastCluster = (wireAll front).length ∧
    wk.trackBlockCount0 = satCount (countTrack 1 tail) ∧
    wk.trackBlockCount1 = satCount (countTrack 2 tail) ∧
    wk.trackBlockKeyframe0 = hasKeyframe 1 tail ∧
    wk.trackBlockKeyframe1 = hasKeyframe 2 tail ∧
    (conf = true →
      firstTrackKeyframe 1 (headSpan (front ++ c :: tail)) ∧
      firstTrackKeyframe 2 (headSpan (front ++ c :: tail)))

/-! ## Helper lemmas -/

theorem header_handleRAP (wk : WebmKeeper) (el : Elem) :
    (handleRandomAccessPoint wk el).1.header = wk.header := by
  unfold handleRandomAccessPoint WebmKeeper.resetTracking WebmKeeper.incTrackCount
    WebmKeeper.setKeyframe
  split
  · rfl
  · split
    · rcases AsKeyBlock el with e | ⟨t, kf⟩
      · rfl
      · dsimp only
        split
        · rfl
        · split <;> split <;> split <;> split <;> rfl
    · rfl

theorem header_next (wk : WebmKeeper) (el : Elem) :
    ((wk.next el).1).header = wk.header := by
  unfold WebmKeeper.next
  have h := header_handleRAP wk el
  rcases hR : handleRandomAccessPoint wk el with ⟨wk', err⟩
  rw [hR] at h
  cases err <;> simpa using h

theorem header_runNext (wk : WebmKeeper) (els : List Elem) :
    ((runNext wk els).1).header = wk.header := by
  induction els generalizing wk with
  | nil => rfl
  | cons el rest ih =>
    unfold runNext
    have h := header_next wk el
    rcases hN : wk.next el with ⟨wk', res⟩
    rw [hN] at h
    cases res with
    | error e => simpa using h
    | ok b => rw [ih wk']; simpa using h

/-! ## Claims -/

/-- **C10**. For every element whose name is neither `"SimpleBlock"` nor
`"Block"`, `AsKeyBlock` returns track number 0, keyframe `false` and no
error, and its result does not depend on the element's payload (nor on its
level or wire bytes). -/
theorem c10_askeyblock_nonblock (e : Elem)
    (h1 : e.name ≠ "SimpleBlock") (h2 : e.name ≠ "Block") :
    AsKeyBlock e = .ok (0, false) ∧
    ∀ lvl p w, AsKeyBlock { name := e.name, level := lvl, payload := p, wire := w }
      = .ok (0, false) := by
  constructor
  · unfold AsKeyBlock
    rw [if_neg h1, if_neg h2]
  · intro lvl p w
    unfold AsKeyBlock
    simp only
    rw [if_neg h1, if_neg h2]

/-- Witness for C10 at a concrete `Cluster` element. -/
theorem c10_witness :
    ((⟨"Cluster", 1, [3, 1, 4], [9, 9]⟩ : Elem).name ≠ "SimpleBlock") ∧
    ((⟨"Cluster", 1, [3, 1, 4], [9, 9]⟩ : Elem).name ≠ "Block") ∧
    AsKeyBlock ⟨"Cluster", 1, [3, 1, 4], [9, 9]⟩ = .ok (0, false) :=
  ⟨by decide, by decide,
    (c10_askeyblock_nonblock ⟨"Cluster", 1, [3, 1, 4], [9, 9]⟩
      (by decide) (by decide)).1⟩

/-- **C9**. A GET whose path has no registered keeper terminates with
status 404, body exactly `"couldn't find stream " ++ path`, and no
subscriber queue is registered with the bus. -/
theorem c9_missing_channel (keepers : String → Option WebmKeeper) (path : String)
    (h : keepers path = none) :
    serveGet keepers path =
      { status := 404, respBody := "couldn't find stream " ++ path,
        subscribed := false } := by
  unfold serveGet onOpenGet
  rw [h]
  simp

/-- Witness for C9: no keepers at all, path `/stream/missing`. -/
theorem c9_witness :
    serveGet (fun _ => none) "/stream/missing" =
      { status := 404, respBody := "couldn't find stream /stream/missing",
        subscribed := false } :=
  c9_missing_channel (fun _ => none) "/stream/missing" rfl

/-- **C7**. Incrementing a track's block count when it equals 255 leaves it
at 255 (also after any number of further increments: it never wraps to
zero), and a `Cluster` element resets both counts to 0. -/
theorem c7_saturating_counter (wk : WebmKeeper) (n : Nat) (el : Elem) :
    (wk.trackBlockCount0 = 255 →
      (wk.incTrackCount 0).trackBlockCount0 = 255 ∧
      ((fun w => WebmKeeper.incTrackCount w 0)^[n] wk).trackBlockCount0 = 255)
  ∧ (wk.trackBlockCount1 = 255 →
      (wk.incTrackCount 1).trackBlockCount1 = 255 ∧
      ((fun w => WebmKeeper.incTrackCount w 1)^[n] wk).trackBlockCount1 = 255)
  ∧ (el.name = "Cluster" →
      (handleRandomAccessPoint wk el).1.trackBlockCount0 = 0 ∧
      (handleRandomAccessPoint wk el).1.trackBlockCount1 = 0) := by
  refine ⟨fun h => ?_, fun h => ?_, fun h => ?_⟩
  · have hfix : wk.incTrackCount 0 = wk := by
      unfold WebmKeeper.incTrackCount
      rw [if_pos rfl, if_neg (by omega)]
    have hit : ∀ m, (fun w => WebmKeeper.incTrackCount w 0)^[m] wk = wk := by
      intro m
      induction m with
      | zero => rfl
      | succ k ih => rw [Function.iterate_succ_apply', ih]; exact hfix
    exact ⟨by rw [hfix, h], by rw [hit n, h]⟩
  · have hfix : wk.incTrackCount 1 = wk := by
      unfold WebmKeeper.incTrackCount
      rw [if_neg (by omega), if_neg (by omega)]
    have hit : ∀ m, (fun w => WebmKeeper.incTrackCount w 1)^[m] wk = wk := by
      intro m
      induction m with
      | zero => rfl
      | succ k ih => rw [Function.iterate_succ_apply', ih]; exact hfix
    exact ⟨by rw [hfix, h], by rw [hit n, h]⟩
  · unfold handleRandomAccessPoint
    rw [if_pos h]
    exact ⟨rfl, rfl⟩

/-- Witness for C7 at a saturated keeper and a concrete `Cluster`. -/
theorem c7_witness :
    ({ header := [], body := [1], lastCluster := 0,
       trackBlockCount0 := 255, trackBlockCount1 := 255,
       trackBlockKeyframe0 := true, trackBlockKeyframe1 := false } :
        WebmKeeper).trackBlockCount0 = 255 ∧
    (({ header := [], body := [1], lastCluster := 0,
        trackBlockCount0 := 255, trackBlockCount1 := 255,
        trackBlockKeyframe0 := true, trackBlockKeyframe1 := false } :
        WebmKeeper).incTrackCount 0).trackBlockCount0 = 255 ∧
    ((fun w => WebmKeeper.incTrackCount w 0)^[1000]
      ({ header := [], body := [1], lastCluster := 0,
         trackBlockCount0 := 255, trackBlockCount1 := 255,
         trackBlockKeyframe0 := true, trackBlockKeyframe1 := false } :
          WebmKeeper)).trackBlockCount0 = 255 ∧
    (handleRandomAccessPoint
      { header := [], body := [1], lastCluster := 0,
        trackBlockCount0 := 255, trackBlockCount1 := 255,
        trackBlockKeyframe0 := true, trackBlockKeyframe1 := false }
      ⟨"Cluster", 1, [], [7]⟩).1.trackBlockCount0 = 0 := by
  have h := c7_saturating_counter
    { header := [], body := [1], lastCluster := 0,
      trackBlockCount0 := 255, trackBlockCount1 := 255,
      trackBlockKeyframe0 := true, trackBlockKeyframe1 := false }
    1000 ⟨"Cluster", 1, [], [7]⟩
  exact ⟨rfl, (h.1 rfl).1, (h.1 rfl).2, (h.2.2 rfl).1⟩

/-- Whether the registry currently records a live publisher for `ch` (the
`srcGotten` flag of its `pubSub`, `false` when no `pubSub` exists).  This is
exactly what `GetPubCh` reports. -/
def muxLive (m : Mux) (ch : String) : Bool :=
  match m ch with
  | none => false
  | some b => b

theorem getPubCh_snd (m : Mux) (ch : String) :
    (getPubCh m ch).2 = muxLive m ch := rfl

theorem muxLive_applyOps (ops : List RegOp) :
    ∀ (m : Mux) (ch : String),
      muxLive (applyOps m ops) ch = pubLiveAfter ch (muxLive m ch) ops := by
  induction ops with
  | nil => intro m ch; rfl
  | cons op ops ih =>
    intro m ch
    cases op with
    | getPub c =>
      show muxLive (applyOps (applyOp m (.getPub c)) ops) ch
        = pubLiveAfter ch (if c = ch then true else muxLive m ch) ops
      rw [ih]
      congr 1
      by_cases hc : c = ch
      · subst hc
        simp [muxLive, applyOp, getPubCh]
      · have hc' : ¬(ch = c) := fun h => hc h.symm
        simp [muxLive, applyOp, getPubCh, hc, hc']
    | closePub c =>
      show muxLive (applyOps (applyOp m (.closePub c)) ops) ch
        = pubLiveAfter ch (if c = ch then false else muxLive m ch) ops
      rw [ih]
      congr 1
      by_cases hc : c = ch
      · subst hc
        rcases hm : m c with _ | b <;> simp [muxLive, applyOp, closePubCh, hm]
      · have hc' : ¬(ch = c) := fun h => hc h.symm
        rcases hm : m c with _ | b <;> simp [muxLive, applyOp, closePubCh, hm, hc, hc']
    | addSub c =>
      show muxLive (applyOps (applyOp m (.addSub c)) ops) ch
        = pubLiveAfter ch (muxLive m ch) ops
      rw [ih]
      congr 1
      by_cases hc : ch = c
      · subst hc
        rcases hm : m ch with _ | b <;> simp [muxLive, applyOp, addSubCh, hm]
      · rcases hm : m c with _ | b <;> simp [muxLive, applyOp, addSubCh, hm, hc]
    | remSub c =>
      show muxLive (applyOps (applyOp m (.remSub c)) ops) ch
        = pubLiveAfter ch (muxLive m ch) ops
      rw [ih]
      rfl

/-- **C8**. `GetPubCh` reports an existing publisher exactly when a
`GetPubCh` for that name precedes with no `ClosePubCh` for it in between
(over any sequence of registry operations from the fresh registry); in
particular a `GetPubCh` right after a `GetPubCh` on the same name reports
the publisher exists, and a `GetPubCh` right after a `ClosePubCh` on the
name reports no existing publisher. -/
theorem c8_single_publisher (ops : List RegOp) (ch : String) (m : Mux) :
    (getPubCh (applyOps emptyMux ops) ch).2 = pubLiveAfter ch false ops
  ∧ (getPubCh (applyOp m (.getPub ch)) ch).2 = true
  ∧ (getPubCh ((closePubCh m ch).1) ch).2 = false := by
  refine ⟨?_, ?_, ?_⟩
  · rw [getPubCh_snd, muxLive_applyOps]
    rfl
  · rw [getPubCh_snd]
    simp [muxLive, applyOp, getPubCh]
  · rw [getPubCh_snd]
    rcases hm : m ch with _ | b <;> simp [muxLive, closePubCh, hm]

/-- **C6**. Neither `handleRandomAccessPoint`, nor `Next`, nor any sequence
of `Next` calls, mutates the header; `Bootstrap` only reads it (its output
is `header ++ body` and the keeper state is not touched). -/
theorem c6_header_immutability (wk : WebmKeeper) (el : Elem) (els : List Elem) :
    (handleRandomAccessPoint wk el).1.header = wk.header
  ∧ ((wk.next el).1).header = wk.header
  ∧ ((runNext wk els).1).header = wk.header
  ∧ wk.bootstrap = wk.header ++ wk.body :=
  ⟨header_handleRAP wk el, header_next wk el, header_runNext wk els, rfl⟩

/-- **C5**. For a SimpleBlock/Block element whose payload decodes to track
`t`, `Next` returns an error exactly when `t < 1` or `t > 2`, and on that
error neither `body` nor `header` changes. -/
theorem c5_impossible_track (wk : WebmKeeper) (el : Elem) (t : Nat) (kf : Bool)
    (hname : el.name = "SimpleBlock" ∨ el.name = "Block")
    (hdec : AsKeyBlock el = .ok (t, kf)) :
    ((∃ e, (wk.next el).2 = .error e) ↔ (t < 1 ∨ 2 < t))
  ∧ ((t < 1 ∨ 2 < t) →
      (wk.next el).1.body = wk.body ∧ (wk.next el).1.header = wk.header) := by
  have hnc : ¬(el.name = "Cluster") := by
    rcases hname with h | h <;> rw [h] <;> decide
  by_cases hrange : t > 2 ∨ t < 1
  · have hR : handleRandomAccessPoint wk el = (wk, some "impossible track number") := by
      unfold handleRandomAccessPoint
      rw [if_neg hnc, if_pos hname, hdec]
      simp only
      rw [if_pos hrange]
    have hN : wk.next el = (wk, .error "impossible track number") := by
      unfold WebmKeeper.next
      rw [hR]
    refine ⟨⟨fun _ => by omega, fun _ => ⟨"impossible track number", by rw [hN]⟩⟩,
      fun _ => ?_⟩
    rw [hN]
    exact ⟨rfl, rfl⟩
  · have hR2 : (handleRandomAccessPoint wk el).2 = none := by
      unfold handleRandomAccessPoint
      rw [if_neg hnc, if_pos hname, hdec]
      simp only
      rw [if_neg hrange]
      split <;> split <;> rfl
    have hN : (wk.next el).2 = .ok el.wire := by
      unfold WebmKeeper.next
      rcases hR : handleRandomAccessPoint wk el with ⟨wk', err⟩
      have herr : err = none := by rw [hR] at hR2; exact hR2
      subst herr
      rfl
    refine ⟨⟨fun ⟨e, he⟩ => ?_, fun h => by omega⟩, fun h => by omega⟩
    rw [hN] at he
    exact absurd he (by simp)

/-- Witness for C5: a SimpleBlock claiming track 3 makes `Next` fail and
leaves the body as it was. -/
theorem c5_witness :
    AsKeyBlock ⟨"SimpleBlock", 2, [0x83, 0, 0, 0x80], [9]⟩ = .ok (3, true) ∧
    (∃ e, ((⟨[1], [2], 0, 0, 0, false, false⟩ : WebmKeeper).next
      ⟨"SimpleBlock", 2, [0x83, 0, 0, 0x80], [9]⟩).2 = .error e) ∧
    ((⟨[1], [2], 0, 0, 0, false, false⟩ : WebmKeeper).next
      ⟨"SimpleBlock", 2, [0x83, 0, 0, 0x80], [9]⟩).1.body = [2] := by
  have h := c5_impossible_track ⟨[1], [2], 0, 0, 0, false, false⟩
    ⟨"SimpleBlock", 2, [0x83, 0, 0, 0x80], [9]⟩ 3 true (Or.inl rfl) rfl
  exact ⟨rfl, h.1.mpr (by omega), (h.2 (by omega)).1⟩

/-- **C1**. The random-access-point rule, applied before the element is
appended to `body`: a `Cluster` records the current body length and resets
the tracking state; a SimpleBlock/Block whose decoded track `t` lies in
{1, 2} saturating-increments `track_block_count[t−1]`, ors the keyframe
flag `track_block_keyframe[t−1]` with the block's keyframe bit, and — when
afterwards both counts are 1 and both flags hold — truncates `body` to the
suffix starting at `last_cluster_offset` and zeroes that offset; every
other element leaves the state unchanged.  The counts are Go `byte`s, hence
the `≤ 255` bounds. -/
theorem c1_random_access_point_rule (wk : WebmKeeper) (el : Elem)
    (hc0 : wk.trackBlockCount0 ≤ 255) (hc1 : wk.trackBlockCount1 ≤ 255) :
    (el.name = "Cluster" →
      handleRandomAccessPoint wk el =
        ({ wk with lastCluster := wk.body.length,
                   trackBlockCount0 := 0, trackBlockCount1 := 0,
                   trackBlockKeyframe0 := false, trackBlockKeyframe1 := false }, none))
  ∧ (∀ t kf, (el.name = "SimpleBlock" ∨ el.name = "Block") →
      AsKeyBlock el = .ok (t, kf) → 1 ≤ t → t ≤ 2 →
      handleRandomAccessPoint wk el =
        (if (if t = 1 then min (wk.trackBlockCount0 + 1) 255 else wk.trackBlockCount0) = 1
            ∧ (if t = 2 then min (wk.trackBlockCount1 + 1) 255 else wk.trackBlockCount1) = 1
            ∧ (wk.trackBlockKeyframe0 || (decide (t = 1) && kf)) = true
            ∧ (wk.trackBlockKeyframe1 || (decide (t = 2) && kf)) = true then
          ({ wk with
              trackBlockCount0 :=
                if t = 1 then min (wk.trackBlockCount0 + 1) 255 else wk.trackBlockCount0,
              trackBlockCount1 :=
                if t = 2 then min (wk.trackBlockCount1 + 1) 255 else wk.trackBlockCount1,
              trackBlockKeyframe0 := wk.trackBlockKeyframe0 || (decide (t = 1) && kf),
              trackBlockKeyframe1 := wk.trackBlockKeyframe1 || (decide (t = 2) && kf),
              body := wk.body.drop wk.lastCluster, lastCluster := 0 }, none)
        else
          ({ wk with
              trackBlockCount0 :=
                if t = 1 then min (wk.trackBlockCount0 + 1) 255 else wk.trackBlockCount0,
              trackBlockCount1 :=
                if t = 2 then min (wk.trackBlockCount1 + 1) 255 else wk.trackBlockCount1,
              trackBlockKeyframe0 := wk.trackBlockKeyframe0 || (decide (t = 1) && kf),
              trackBlockKeyframe1 := wk.trackBlockKeyframe1 || (decide (t = 2) && kf) }, none)))
  ∧ (el.name ≠ "Cluster" → el.name ≠ "SimpleBlock" → el.name ≠ "Block" →
      handleRandomAccessPoint wk el = (wk, none)) := by
  refine ⟨fun h => ?_, fun t kf hname hdec h1 h2 => ?_, fun hn1 hn2 hn3 => ?_⟩
  · unfold handleRandomAccessPoint WebmKeeper.resetTracking
    rw [if_pos h]
  · have hnc : ¬(el.name = "Cluster") := by
      rcases hname with h | h <;> rw [h] <;> decide
    have hrange : ¬(t > 2 ∨ t < 1) := by omega
    unfold handleRandomAccessPoint
    rw [if_neg hnc, if_pos hname, hdec]
    simp only
    rw [if_neg hrange]
    have ht : t = 1 ∨ t = 2 := by omega
    rcases ht with ht | ht <;> subst ht <;> cases kf
    · by_cases hlt : wk.trackBlockCount0 < 255
      · have hm : min (wk.trackBlockCount0 + 1) 255 = wk.trackBlockCount0 + 1 := by omega
        simp [WebmKeeper.incTrackCount, WebmKeeper.setKeyframe, hlt, hm]
      · have h255 : wk.trackBlockCount0 = 255 := by omega
        have hm : min (wk.trackBlockCount0 + 1) 255 = wk.trackBlockCount0 := by omega
        simp [WebmKeeper.incTrackCount, WebmKeeper.setKeyframe, hlt, hm]
    · by_cases hlt : wk.trackBlockCount0 < 255
      · have hm : min (wk.trackBlockCount0 + 1) 255 = wk.trackBlockCount0 + 1 := by omega
        simp [WebmKeeper.incTrackCount, WebmKeeper.setKeyframe, hlt, hm]
      · have h255 : wk.trackBlockCount0 = 255 := by omega
        have hm : min (wk.trackBlockCount0 + 1) 255 = wk.trackBlockCount0 := by omega
        simp [WebmKeeper.incTrackCount, WebmKeeper.setKeyframe, hlt, hm]
    · by_cases hlt : wk.trackBlockCount1 < 255
      · have hm : min (wk.trackBlockCount1 + 1) 255 = wk.trackBlockCount1 + 1 := by omega
        simp [WebmKeeper.incTrackCount, WebmKeeper.setKeyframe, hlt, hm]
      · have h255 : wk.trackBlockCount1 = 255 := by omega
        have hm : min (wk.trackBlockCount1 + 1) 255 = wk.trackBlockCount1 := by omega
        simp [WebmKeeper.incTrackCount, WebmKeeper.setKeyframe, hlt, hm]
    · by_cases hlt : wk.trackBlockCount1 < 255
      · have hm : min (wk.trackBlockCount1 + 1) 255 = wk.trackBlockCount1 + 1 := by omega
        simp [WebmKeeper.incTrackCount, WebmKeeper.setKeyframe, hlt, hm]
      · have h255 : wk.trackBlockCount1 = 255 := by omega
        have hm : min (wk.trackBlockCount1 + 1) 255 = wk.trackBlockCount1 := by omega
        simp [WebmKeeper.incTrackCount, WebmKeeper.setKeyframe, hlt, hm]
  · unfold handleRandomAccessPoint
    rw [if_neg hn1, if_neg (by simp [hn2, hn3])]

/-- Witness for C1: a track-1 keyframe SimpleBlock on a fresh keeper sets
`count[0] = 1` and `keyframe[0] = true` without truncating. -/
theorem c1_witness :
    (⟨[], [5, 5], 0, 0, 0, false, false⟩ : WebmKeeper).trackBlockCount0 ≤ 255 ∧
    AsKeyBlock ⟨"SimpleBlock", 2, [0x81, 0, 0, 0x80], [7]⟩ = .ok (1, true) ∧
    handleRandomAccessPoint ⟨[], [5, 5], 0, 0, 0, false, false⟩
        ⟨"SimpleBlock", 2, [0x81, 0, 0, 0x80], [7]⟩
      = (⟨[], [5, 5], 0, 1, 0, true, false⟩, none) := by
  have h := (c1_random_access_point_rule ⟨[], [5, 5], 0, 0, 0, false, false⟩
    ⟨"SimpleBlock", 2, [0x81, 0, 0, 0x80], [7]⟩ (by decide) (by decide)).2.1
    1 true (Or.inl rfl) rfl (by decide) (by decide)
  refine ⟨by decide, rfl, ?_⟩
  rw [h]
  decide

theorem newKeeperLoop_skip (pre : List Elem) :
    ∀ (hdr : List Nat) (tl : List (Except String Elem)),
      (∀ e ∈ pre, e.name ≠ "Cluster") →
      newKeeperLoop hdr ((pre.map .ok) ++ tl) = newKeeperLoop (hdr ++ wireAll pre) tl := by
  induction pre with
  | nil => intro hdr tl _; rw [wireAll]; simp
  | cons e pre ih =>
    intro hdr tl hpre
    have he : ¬(e.name = "Cluster") := hpre e (List.mem_cons_self e pre)
    have h1 : newKeeperLoop hdr (((e :: pre).map .ok) ++ tl)
        = newKeeperLoop (hdr ++ e.wire) ((pre.map .ok) ++ tl) := by
      simp only [List.map_cons, List.cons_append, newKeeperLoop]
      rw [if_neg he]
      rfl
    rw [h1, ih (hdr ++ e.wire) tl (fun x hx => hpre x (List.mem_cons_of_mem e hx))]
    congr 1
    rw [wireAll, wireAll]
    simp

/-- **C4**. `New` serializes every element preceding the first `Cluster`
into `header`; the first `Cluster`'s bytes become `body`; the tracking
state starts zeroed.  If the source is exhausted before a `Cluster`, or
yields an error first, `New` returns that error and no keeper. -/
theorem c4_keeper_construction :
    (∀ (pre : List Elem) (c : Elem) (rest : List (Except String Elem)),
      (∀ e ∈ pre, e.name ≠ "Cluster") → c.name = "Cluster" →
      newKeeper ((pre.map .ok) ++ .ok c :: rest) =
        .ok { header := wireAll pre, body := c.wire, lastCluster := 0,
              trackBlockCount0 := 0, trackBlockCount1 := 0,
              trackBlockKeyframe0 := false, trackBlockKeyframe1 := false })
  ∧ (∀ (pre : List Elem), (∀ e ∈ pre, e.name ≠ "Cluster") →
      newKeeper (pre.map .ok) = .error "EOF")
  ∧ (∀ (pre : List Elem) (err : String) (rest : List (Except String Elem)),
      (∀ e ∈ pre, e.name ≠ "Cluster") →
      newKeeper ((pre.map .ok) ++ .error err :: rest) = .error err) := by
  refine ⟨fun pre c rest hpre hc => ?_, fun pre hpre => ?_, fun pre err rest hpre => ?_⟩
  · unfold newKeeper
    rw [newKeeperLoop_skip pre [] (.ok c :: rest) hpre]
    unfold newKeeperLoop
    rw [if_pos hc]
    simp
  · unfold newKeeper
    have h : (pre.map (Except.ok (ε := String))) = (pre.map .ok) ++ [] := by simp
    rw [h, newKeeperLoop_skip pre [] [] hpre]
    rfl
  · unfold newKeeper
    rw [newKeeperLoop_skip pre [] (.error err :: rest) hpre]
    rfl

/-- Witness for C4: one non-Cluster element then a Cluster builds the
keeper; the same prefix alone, or followed by a source error, fails. -/
theorem c4_witness :
    newKeeper [.ok ⟨"EBML", 0, [], [1, 2]⟩, .ok ⟨"Cluster", 1, [], [3]⟩] =
      .ok { header := [1, 2], body := [3], lastCluster := 0,
            trackBlockCount0 := 0, trackBlockCount1 := 0,
            trackBlockKeyframe0 := false, trackBlockKeyframe1 := false } ∧
    newKeeper [.ok ⟨"EBML", 0, [], [1, 2]⟩] = .error "EOF" ∧
    newKeeper [.ok ⟨"EBML", 0, [], [1, 2]⟩, .error "bad stream"] = .error "bad stream" := by
  have h := c4_keeper_construction
  have hpre : ∀ e ∈ [(⟨"EBML", 0, [], [1, 2]⟩ : Elem)], e.name ≠ "Cluster" := by decide
  refine ⟨?_, h.2.1 [⟨"EBML", 0, [], [1, 2]⟩] hpre, ?_⟩
  · have := h.1 [⟨"EBML", 0, [], [1, 2]⟩] ⟨"Cluster", 1, [], [3]⟩ [] hpre rfl
    simpa [wireAll] using this
  · exact h.2.2 [⟨"EBML", 0, [], [1, 2]⟩] "bad stream" [] hpre

/-- **C3**. Whenever `parseAsBlock` succeeds, the keyframe flag it returns
is `true` exactly when the byte at offset 2 of the payload remaining after
the prelude (track varint, 2-byte timecode, flags byte, and for non-`None`
lacing the frame-count byte plus the lacing preambles) has its `0x01` bit
clear. -/
theorem c3_block_keyframe (data : List Nat) (b : Block)
    (h : parseAsBlock data = some b) :
    ∃ rest k, stripBlockPrelude data = some rest ∧ rest.get? 2 = some k ∧
      (b.keyframe = true ↔ k &&& 0x01 = 0) := by
  unfold parseAsBlock at h
  split at h
  · simp at h
  · rename_i v sz heq
    rw [stripBlockPrelude, heq]
    dsimp only
    split at h
    · rename_i b0 b1 flags rest heq2
      dsimp only at h ⊢
      by_cases h0 : flags >>> 4 &&& 3 = 0
      · rw [if_neg (by omega)] at h
        rw [if_pos h0]
        split at h
        · simp at h
        · rename_i k hk
          have hb := Option.some.inj h
          subst hb
          exact ⟨rest, k, rfl, hk, by simp⟩
      · rw [if_pos (by omega)] at h
        rw [if_neg h0]
        cases rest with
        | nil => simp at h
        | cons n rest2 =>
          dsimp only at h ⊢
          by_cases h1 : flags >>> 4 &&& 3 = 1
          · rw [if_pos h1] at h ⊢
            split at h
            · simp at h
            · rename_i d hx
              rw [hx]
              split at h
              · simp at h
              · rename_i k hk
                have hb := Option.some.inj h
                subst hb
                exact ⟨d, k, rfl, hk, by simp⟩
          · by_cases h3 : flags >>> 4 &&& 3 = 3
            · rw [if_neg h1, if_pos h3] at h ⊢
              split at h
              · simp at h
              · rename_i d he
                rw [he]
                split at h
                · simp at h
                · rename_i k hk
                  have hb := Option.some.inj h
                  subst hb
                  exact ⟨d, k, rfl, hk, by simp⟩
            · rw [if_neg h1, if_neg h3] at h ⊢
              split at h
              · simp at h
              · rename_i k hk
                have hb := Option.some.inj h
                subst hb
                exact ⟨rest2, k, rfl, hk, by simp⟩
    · simp at h

/-- Witness for C3: an unlaced Block whose post-prelude byte at offset 2 is
even, hence a keyframe. -/
theorem c3_witness :
    parseAsBlock [0x81, 0, 0, 0x00, 10, 20, 30] =
      some { trackNumber := 1, timecode := 0, keyframe := true,
             invisible := false, lacing := 0 } ∧
    ∃ rest k, stripBlockPrelude [0x81, 0, 0, 0x00, 10, 20, 30] = some rest ∧
      rest.get? 2 = some k ∧
      ((true : Bool) = true ↔ k &&& 0x01 = 0) := by
  refine ⟨by decide, ?_⟩
  have h := c3_block_keyframe [0x81, 0, 0, 0x00, 10, 20, 30]
    { trackNumber := 1, timecode := 0, keyframe := true,
      invisible := false, lacing := 0 } (by decide)
  exact h

/-! ## Towards C2: list and counter lemmas -/

theorem wireAll_nil : wireAll [] = [] := rfl

theorem wireAll_cons (e : Elem) (l : List Elem) :
    wireAll (e :: l) = e.wire ++ wireAll l := by
  simp [wireAll]

theorem wireAll_append (l1 l2 : List Elem) :
    wireAll (l1 ++ l2) = wireAll l1 ++ wireAll l2 := by
  simp [wireAll]

theorem satCount_inc (n : Nat) :
    (if satCount n < 255 then satCount n + 1 else satCount n) = satCount (n + 1) := by
  unfold satCount
  split <;> omega

theorem satCount_eq_one {n : Nat} (h : satCount n = 1) : n = 1 := by
  unfold satCount at h
  omega

theorem countTrack_nil (t : Nat) : countTrack t [] = 0 := rfl

theorem countTrack_append_single (t : Nat) (l : List Elem) (e : Elem) :
    countTrack t (l ++ [e]) = countTrack t l + (if isTrackBlock t e then 1 else 0) := by
  unfold countTrack
  rw [List.filter_append, List.length_append]
  congr 1
  split <;> rename_i hb <;> simp [List.filter, hb]

theorem hasKeyframe_nil (t : Nat) : hasKeyframe t [] = false := rfl

theorem hasKeyframe_append_single (t : Nat) (l : List Elem) (e : Elem) :
    hasKeyframe t (l ++ [e]) =
      (hasKeyframe t l || (isTrackBlock t e && blockKeyframeOf e)) := by
  unfold hasKeyframe
  rw [List.any_append]
  simp

theorem find?_append_some {p : Elem → Bool} {l : List Elem} (l' : List Elem) {a : Elem}
    (h : l.find? p = some a) : (l ++ l').find? p = some a := by
  induction l with
  | nil => simp at h
  | cons x xs ih =>
    cases hp : p x
    · rw [List.find?_cons_of_neg _ (by simp [hp])] at h
      rw [List.cons_append, List.find?_cons_of_neg _ (by simp [hp])]
      exact ih h
    · rw [List.find?_cons_of_pos _ hp] at h
      rw [List.cons_append, List.find?_cons_of_pos _ hp]
      exact h

theorem takeWhile_append_extend (p : Elem → Bool) (xs ys : List Elem) :
    ∃ zs, (xs ++ ys).takeWhile p = xs.takeWhile p ++ zs := by
  induction xs with
  | nil => exact ⟨ys.takeWhile p, by simp⟩
  | cons x xs ih =>
    cases hp : p x
    · exact ⟨[], by simp [List.takeWhile_cons, hp]⟩
    · obtain ⟨zs, hzs⟩ := ih
      exact ⟨zs, by simp [List.takeWhile_cons, hp, hzs]⟩

theorem takeWhile_of_all (p : Elem → Bool) (l : List Elem)
    (h : ∀ e ∈ l, p e = true) : l.takeWhile p = l := by
  induction l with
  | nil => rfl
  | cons x xs ih =>
    rw [List.takeWhile_cons, if_pos (h x (List.mem_cons_self x xs)),
      ih (fun e he => h e (List.mem_cons_of_mem x he))]

theorem firstTrackKeyframe_headSpan_append (t : Nat) (l : List Elem) (e : Elem)
    (h : firstTrackKeyframe t (headSpan l)) :
    firstTrackKeyframe t (headSpan (l ++ [e])) := by
  obtain ⟨a, ha, hka⟩ := h
  cases l with
  | nil => simp [headSpan] at ha
  | cons x xs =>
    unfold headSpan at ha ⊢
    obtain ⟨zs, hzs⟩ :=
      takeWhile_append_extend (fun e => !(e.name == "Cluster")) xs [e]
    simp only [List.cons_append, List.tail_cons] at ha ⊢
    rw [hzs]
    exact ⟨a, find?_append_some zs ha, hka⟩

theorem firstTrackKeyframe_of_unique {t : Nat} {L : List Elem}
    (hc : countTrack t L = 1) (hk : hasKeyframe t L = true) :
    firstTrackKeyframe t L := by
  induction L with
  | nil => simp [countTrack] at hc
  | cons x xs ih =>
    cases hx : isTrackBlock t x
    · have hc' : countTrack t xs = 1 := by
        unfold countTrack at hc ⊢
        rw [List.filter_cons, if_neg (by simp [hx])] at hc
        exact hc
      have hk' : hasKeyframe t xs = true := by
        unfold hasKeyframe at hk ⊢
        rw [List.any_cons] at hk
        simpa [hx] using hk
      obtain ⟨a, ha, hka⟩ := ih hc' hk'
      exact ⟨a, by rw [List.find?_cons_of_neg _ (by simp [hx])]; exact ha, hka⟩
    · have hcx : countTrack t xs = 0 := by
        unfold countTrack at hc ⊢
        rw [List.filter_cons, if_pos (by simp [hx])] at hc
        simpa using hc
      have hnone : ∀ e ∈ xs, ¬(isTrackBlock t e = true ∧ blockKeyframeOf e = true) := by
        intro e he hcontra
        have hmem : e ∈ xs.filter (isTrackBlock t) :=
          List.mem_filter.mpr ⟨he, hcontra.1⟩
        unfold countTrack at hcx
        rw [List.length_eq_zero] at hcx
        rw [hcx] at hmem
        simp at hmem
      have hkx : blockKeyframeOf x = true := by
        unfold hasKeyframe at hk
        rw [List.any_cons] at hk
        rcases Bool.or_eq_true_iff.mp hk with h1 | h2
        · exact (Bool.and_eq_true_iff.mp h1).2
        · obtain ⟨e, he, hpe⟩ := List.any_eq_true.mp h2
          exact absurd (Bool.and_eq_true_iff.mp hpe)
            (by exact fun hc2 => hnone e he ⟨hc2.1, hc2.2⟩)
      exact ⟨x, by rw [List.find?_cons_of_pos _ hx], hkx⟩

theorem handleRAP_block_eq (wk : WebmKeeper) (el : Elem) (t : Nat) (kf : Bool)
    (hblk : el.name = "SimpleBlock" ∨ el.name = "Block")
    (hak : AsKeyBlock el = .ok (t, kf)) (h1 : 1 ≤ t) (h2 : t ≤ 2) :
    handleRandomAccessPoint wk el =
      (if (if t = 1 then
              (if wk.trackBlockCount0 < 255 then wk.trackBlockCount0 + 1
               else wk.trackBlockCount0)
            else wk.trackBlockCount0) = 1
          ∧ (if t = 2 then
              (if wk.trackBlockCount1 < 255 then wk.trackBlockCount1 + 1
               else wk.trackBlockCount1)
            else wk.trackBlockCount1) = 1
          ∧ (wk.trackBlockKeyframe0 || (decide (t = 1) && kf)) = true
          ∧ (wk.trackBlockKeyframe1 || (decide (t = 2) && kf)) = true then
        ({ wk with
            trackBlockCount0 :=
              if t = 1 then
                (if wk.trackBlockCount0 < 255 then wk.trackBlockCount0 + 1
                 else wk.trackBlockCount0)
              else wk.trackBlockCount0,
            trackBlockCount1 :=
              if t = 2 then
                (if wk.trackBlockCount1 < 255 then wk.trackBlockCount1 + 1
                 else wk.trackBlockCount1)
              else wk.trackBlockCount1,
            trackBlockKeyframe0 := wk.trackBlockKeyframe0 || (decide (t = 1) && kf),
            trackBlockKeyframe1 := wk.trackBlockKeyframe1 || (decide (t = 2) && kf),
            body := wk.body.drop wk.lastCluster, lastCluster := 0 }, none)
      else
        ({ wk with
            trackBlockCount0 :=
              if t = 1 then
                (if wk.trackBlockCount0 < 255 then wk.trackBlockCount0 + 1
                 else wk.trackBlockCount0)
              else wk.trackBlockCount0,
            trackBlockCount1 :=
              if t = 2 then
                (if wk.trackBlockCount1 < 255 then wk.trackBlockCount1 + 1
                 else wk.trackBlockCount1)
              else wk.trackBlockCount1,
            trackBlockKeyframe0 := wk.trackBlockKeyframe0 || (decide (t = 1) && kf),
            trackBlockKeyframe1 := wk.trackBlockKeyframe1 || (decide (t = 2) && kf) },
          none)) := by
  have hnc : ¬(el.name = "Cluster") := by
    rcases hblk with h | h <;> rw [h] <;> decide
  have hrange : ¬(t > 2 ∨ t < 1) := by omega
  unfold handleRandomAccessPoint
  rw [if_neg hnc, if_pos hblk, hak]
  simp only
  rw [if_neg hrange]
  have ht : t = 1 ∨ t = 2 := by omega
  rcases ht with ht | ht <;> subst ht <;> cases kf <;>
    by_cases hlt0 : wk.trackBlockCount0 < 255 <;>
    by_cases hlt1 : wk.trackBlockCount1 < 255 <;>
    simp [WebmKeeper.incTrackCount, WebmKeeper.setKeyframe, hlt0, hlt1]

theorem confirmsRAP_block_eq (wk : WebmKeeper) (el : Elem) (t : Nat) (kf : Bool)
    (hblk : el.name = "SimpleBlock" ∨ el.name = "Block")
    (hak : AsKeyBlock el = .ok (t, kf)) (h1 : 1 ≤ t) (h2 : t ≤ 2) :
    confirmsRAP wk el =
      decide ((if t = 1 then
              (if wk.trackBlockCount0 < 255 then wk.trackBlockCount0 + 1
               else wk.trackBlockCount0)
            else wk.trackBlockCount0) = 1
          ∧ (if t = 2 then
              (if wk.trackBlockCount1 < 255 then wk.trackBlockCount1 + 1
               else wk.trackBlockCount1)
            else wk.trackBlockCount1) = 1
          ∧ (wk.trackBlockKeyframe0 || (decide (t = 1) && kf)) = true
          ∧ (wk.trackBlockKeyframe1 || (decide (t = 2) && kf)) = true) := by
  have hnc : ¬(el.name = "Cluster") := by
    rcases hblk with h | h <;> rw [h] <;> decide
  have hrange : ¬(t > 2 ∨ t < 1) := by omega
  unfold confirmsRAP
  rw [if_neg hnc, if_pos hblk, hak]
  simp only
  rw [if_neg hrange]
  have ht : t = 1 ∨ t = 2 := by omega
  rcases ht with ht | ht <;> subst ht <;> cases kf <;>
    by_cases hlt0 : wk.trackBlockCount0 < 255 <;>
    by_cases hlt1 : wk.trackBlockCount1 < 255 <;>
    simp [WebmKeeper.incTrackCount, WebmKeeper.setKeyframe, hlt0, hlt1]

theorem keeperInv_step {conf : Bool} {wk wk' : WebmKeeper} {el : Elem} {b : List Nat}
    (hInv : KeeperInv conf wk) (h : wk.next el = (wk', .ok b)) :
    KeeperInv (conf || confirmsRAP wk el) wk' := by
  obtain ⟨front, c, tail, hc, hfront, htail, hbody, hlast, hcnt0, hcnt1, hkf0, hkf1, hconf⟩ := hInv
  by_cases hcl : el.name = "Cluster"
  · -- a Cluster element: remember the body offset, reset tracking
    have hR : handleRandomAccessPoint wk el =
        ({ wk with lastCluster := wk.body.length, trackBlockCount0 := 0,
                   trackBlockCount1 := 0, trackBlockKeyframe0 := false,
                   trackBlockKeyframe1 := false }, none) := by
      unfold handleRandomAccessPoint WebmKeeper.resetTracking
      rw [if_pos hcl]
    have hcf : confirmsRAP wk el = false := by
      unfold confirmsRAP
      rw [if_pos hcl]
    unfold WebmKeeper.next at h
    rw [hR] at h
    dsimp only at h
    rw [Prod.mk.injEq] at h
    obtain ⟨hwk', _⟩ := h
    subst hwk'
    rw [hcf, Bool.or_false]
    refine ⟨front ++ c :: tail, el, [], hcl, ?_, by simp, ?_, ?_, by simp [countTrack, satCount],
      by simp [countTrack, satCount], rfl, rfl, ?_⟩
    · rcases hfront with rfl | ⟨c0, f0, rfl, hc0⟩
      · exact Or.inr ⟨c, tail, rfl, hc⟩
      · exact Or.inr ⟨c0, f0 ++ c :: tail, by simp, hc0⟩
    · show wk.body ++ el.wire = wireAll (front ++ c :: tail) ++ el.wire ++ wireAll []
      rw [hbody, wireAll_append, wireAll_cons, wireAll_nil]
      simp [List.append_assoc]
    · show wk.body.length = (wireAll (front ++ c :: tail)).length
      rw [hbody, wireAll_append, wireAll_cons]
      simp [List.append_assoc]
    · intro hcc
      obtain ⟨hf1, hf2⟩ := hconf hcc
      exact ⟨firstTrackKeyframe_headSpan_append 1 _ el hf1,
        firstTrackKeyframe_headSpan_append 2 _ el hf2⟩
  · by_cases hblk : el.name = "SimpleBlock" ∨ el.name = "Block"
    · rcases hak : AsKeyBlock el with e | tkf
      · -- decode error: Next would have failed
        have hR : handleRandomAccessPoint wk el = (wk, some e) := by
          unfold handleRandomAccessPoint
          rw [if_neg hcl, if_pos hblk, hak]
        unfold WebmKeeper.next at h
        rw [hR] at h
        dsimp only at h
        rw [Prod.mk.injEq] at h
        exact absurd h.2 (by simp)
      · rcases tkf with ⟨t, kf⟩
        by_cases hrange : t > 2 ∨ t < 1
        · have hR : handleRandomAccessPoint wk el = (wk, some "impossible track number") := by
            unfold handleRandomAccessPoint
            rw [if_neg hcl, if_pos hblk, hak]
            simp only
            rw [if_pos hrange]
          unfold WebmKeeper.next at h
          rw [hR] at h
          dsimp only at h
          rw [Prod.mk.injEq] at h
          exact absurd h.2 (by simp)
        · -- the in-range SimpleBlock/Block case
          have h1 : 1 ≤ t := by omega
          have h2 : t ≤ 2 := by omega
          have hR := handleRAP_block_eq wk el t kf hblk hak h1 h2
          have hcf := confirmsRAP_block_eq wk el t kf hblk hak h1 h2
          have hbkf : blockKeyframeOf el = kf := by
            unfold blockKeyframeOf
            rw [hak]
          have hC0 : (if t = 1 then
                (if wk.trackBlockCount0 < 255 then wk.trackBlockCount0 + 1
                 else wk.trackBlockCount0)
              else wk.trackBlockCount0) = satCount (countTrack 1 (tail ++ [el])) := by
            rw [countTrack_append_single]
            by_cases ht1 : t = 1
            · have hb : isTrackBlock 1 el = true := by
                unfold isTrackBlock
                rw [hak]
                simp [ht1]
              rw [if_pos ht1, hb, hcnt0]
              simpa using satCount_inc (countTrack 1 tail)
            · have hb : isTrackBlock 1 el = false := by
                unfold isTrackBlock
                rw [hak]
                simp [ht1]
              rw [if_neg ht1, hb, hcnt0]
              simp
          have hC1 : (if t = 2 then
                (if wk.trackBlockCount1 < 255 then wk.trackBlockCount1 + 1
                 else wk.trackBlockCount1)
              else wk.trackBlockCount1) = satCount (countTrack 2 (tail ++ [el])) := by
            rw [countTrack_append_single]
            by_cases ht2 : t = 2
            · have hb : isTrackBlock 2 el = true := by
                unfold isTrackBlock
                rw [hak]
                simp [ht2]
              rw [if_pos ht2, hb, hcnt1]
              simpa using satCount_inc (countTrack 2 tail)
            · have hb : isTrackBlock 2 el = false := by
                unfold isTrackBlock
                rw [hak]
                simp [ht2]
              rw [if_neg ht2, hb, hcnt1]
              simp
          have hK0 : (wk.trackBlockKeyframe0 || (decide (t = 1) && kf))
              = hasKeyframe 1 (tail ++ [el]) := by
            rw [hasKeyframe_append_single, hkf0, hbkf]
            congr 2
            unfold isTrackBlock
            rw [hak]
            by_cases ht1 : t = 1 <;> simp [ht1]
          have hK1 : (wk.trackBlockKeyframe1 || (decide (t = 2) && kf))
              = hasKeyframe 2 (tail ++ [el]) := by
            rw [hasKeyframe_append_single, hkf1, hbkf]
            congr 2
            unfold isTrackBlock
            rw [hak]
            by_cases ht2 : t = 2 <;> simp [ht2]
          rw [hC0, hC1, hK0, hK1] at hR hcf
          have htail' : ∀ e ∈ tail ++ [el], e.name ≠ "Cluster" := by
            intro e he
            rcases List.mem_append.mp he with he | he
            · exact htail e he
            · rw [List.mem_singleton.mp he]
              exact hcl
          by_cases hcd : satCount (countTrack 1 (tail ++ [el])) = 1
              ∧ satCount (countTrack 2 (tail ++ [el])) = 1
              ∧ hasKeyframe 1 (tail ++ [el]) = true
              ∧ hasKeyframe 2 (tail ++ [el]) = true
          · -- the random-access point is confirmed: body is truncated
            rw [if_pos hcd] at hR
            have hcft : confirmsRAP wk el = true := by
              rw [hcf]
              exact decide_eq_true hcd
            unfold WebmKeeper.next at h
            rw [hR] at h
            dsimp only at h
            rw [Prod.mk.injEq] at h
            obtain ⟨hwk', _⟩ := h
            subst hwk'
            rw [hcft, Bool.or_true]
            refine ⟨[], c, tail ++ [el], hc, Or.inl rfl, htail', ?_, rfl, rfl, rfl, rfl, rfl, ?_⟩
            · show wk.body.drop wk.lastCluster ++ el.wire
                = wireAll [] ++ c.wire ++ wireAll (tail ++ [el])
              rw [hbody, hlast, List.append_assoc, List.drop_left, wireAll_append,
                wireAll_cons, wireAll_nil]
              simp [List.append_assoc]
            · intro _
              have hsp : headSpan ([] : List Elem) = [] := rfl
              have hspan : headSpan ([] ++ c :: (tail ++ [el])) = tail ++ [el] := by
                unfold headSpan
                simp only [List.nil_append, List.tail_cons]
                refine takeWhile_of_all _ _ ?_
                intro e he
                simp [htail' e he]
              rw [hspan]
              exact ⟨firstTrackKeyframe_of_unique (satCount_eq_one hcd.1) hcd.2.2.1,
                firstTrackKeyframe_of_unique (satCount_eq_one hcd.2.1) hcd.2.2.2⟩
          · -- no confirmation: the block is just appended
            rw [if_neg hcd] at hR
            have hcff : confirmsRAP wk el = false := by
              rw [hcf]
              exact decide_eq_false hcd
            unfold WebmKeeper.next at h
            rw [hR] at h
            dsimp only at h
            rw [Prod.mk.injEq] at h
            obtain ⟨hwk', _⟩ := h
            subst hwk'
            rw [hcff, Bool.or_false]
            refine ⟨front, c, tail ++ [el], hc, hfront, htail', ?_, hlast, rfl, rfl, rfl, rfl, ?_⟩
            · show wk.body ++ el.wire = wireAll front ++ c.wire ++ wireAll (tail ++ [el])
              rw [hbody, wireAll_append, wireAll_cons, wireAll_nil]
              simp [List.append_assoc]
            · intro hcc
              obtain ⟨hf1, hf2⟩ := hconf hcc
              have hre : front ++ c :: (tail ++ [el]) = (front ++ c :: tail) ++ [el] := by
                simp
              rw [hre]
              exact ⟨firstTrackKeyframe_headSpan_append 1 _ el hf1,
                firstTrackKeyframe_headSpan_append 2 _ el hf2⟩
    · -- any other element: no state change besides the append
      have hR : handleRandomAccessPoint wk el = (wk, none) := by
        unfold handleRandomAccessPoint
        rw [if_neg hcl, if_neg hblk]
      have hcf : confirmsRAP wk el = false := by
        unfold confirmsRAP
        rw [if_neg hcl, if_neg hblk]
      have hak : AsKeyBlock el = .ok (0, false) := by
        unfold AsKeyBlock
        rw [if_neg (fun hh => hblk (Or.inl hh)), if_neg (fun hh => hblk (Or.inr hh))]
      have hb1 : isTrackBlock 1 el = false := by
        unfold isTrackBlock
        rw [hak]
        rfl
      have hb2 : isTrackBlock 2 el = false := by
        unfold isTrackBlock
        rw [hak]
        rfl
      unfold WebmKeeper.next at h
      rw [hR] at h
      dsimp only at h
      rw [Prod.mk.injEq] at h
      obtain ⟨hwk', _⟩ := h
      subst hwk'
      rw [hcf, Bool.or_false]
      have htail' : ∀ e ∈ tail ++ [el], e.name ≠ "Cluster" := by
        intro e he
        rcases List.mem_append.mp he with he | he
        · exact htail e he
        · rw [List.mem_singleton.mp he]
          exact hcl
      refine ⟨front, c, tail ++ [el], hc, hfront, htail', ?_, hlast, ?_, ?_, ?_, ?_, ?_⟩
      · show wk.body ++ el.wire = wireAll front ++ c.wire ++ wireAll (tail ++ [el])
        rw [hbody, wireAll_append, wireAll_cons, wireAll_nil]
        simp [List.append_assoc]
      · rw [countTrack_append_single, hb1]
        simpa using hcnt0
      · rw [countTrack_append_single, hb2]
        simpa using hcnt1
      · rw [hasKeyframe_append_single, hb1]
        simpa using hkf0
      · rw [hasKeyframe_append_single, hb2]
        simpa using hkf1
      · intro hcc
        obtain ⟨hf1, hf2⟩ := hconf hcc
        have hre : front ++ c :: (tail ++ [el]) = (front ++ c :: tail) ++ [el] := by
          simp
        rw [hre]
        exact ⟨firstTrackKeyframe_headSpan_append 1 _ el hf1,
          firstTrackKeyframe_headSpan_append 2 _ el hf2⟩

theorem newKeeperLoop_shape :
    ∀ (tokens : List (Except String Elem)) (hdr : List Nat) (wk0 : WebmKeeper),
      newKeeperLoop hdr tokens = .ok wk0 →
      ∃ cl : Elem, cl.name = "Cluster" ∧ wk0.body = cl.wire ∧ wk0.lastCluster = 0 ∧
        wk0.trackBlockCount0 = 0 ∧ wk0.trackBlockCount1 = 0 ∧
        wk0.trackBlockKeyframe0 = false ∧ wk0.trackBlockKeyframe1 = false := by
  intro tokens
  induction tokens with
  | nil => intro hdr wk0 h; simp [newKeeperLoop] at h
  | cons tk rest ih =>
    intro hdr wk0 h
    cases tk with
    | error e => simp [newKeeperLoop] at h
    | ok el =>
      rw [show newKeeperLoop hdr (.ok el :: rest)
          = (if el.name = "Cluster" then
              .ok { header := hdr, body := el.wire, lastCluster := 0,
                    trackBlockCount0 := 0, trackBlockCount1 := 0,
                    trackBlockKeyframe0 := false, trackBlockKeyframe1 := false }
             else newKeeperLoop (hdr ++ el.wire) rest) from rfl] at h
      by_cases hcl : el.name = "Cluster"
      · rw [if_pos hcl] at h
        have hwk := Except.ok.inj h
        exact ⟨el, hcl, by rw [← hwk], by rw [← hwk], by rw [← hwk], by rw [← hwk],
          by rw [← hwk], by rw [← hwk]⟩
      · rw [if_neg hcl] at h
        exact ih (hdr ++ el.wire) wk0 h

theorem keeperInv_init {tokens : List (Except String Elem)} {wk0 : WebmKeeper}
    (h : newKeeper tokens = .ok wk0) : KeeperInv false wk0 := by
  obtain ⟨cl, hcl, hb, hl, h0, h1, hk0, hk1⟩ := newKeeperLoop_shape tokens [] wk0 h
  refine ⟨[], cl, [], hcl, Or.inl rfl, by simp, ?_, ?_, ?_, ?_, ?_, ?_, by simp⟩
  · rw [hb]
    simp [wireAll]
  · rw [hl]
    rfl
  · rw [h0]
    rfl
  · rw [h1]
    rfl
  · rw [hk0]
    rfl
  · rw [hk1]
    rfl

theorem keeperInv_run (els : List Elem) :
    ∀ (conf : Bool) (wk wk' : WebmKeeper),
      KeeperInv conf wk → runNext wk els = (wk', .ok ()) →
      KeeperInv (conf || runConfirms wk els) wk' := by
  induction els with
  | nil =>
    intro conf wk wk' hI h
    have hh : wk = wk' := by
      have := congrArg Prod.fst h
      simpa using this
    subst hh
    simpa [runConfirms] using hI
  | cons el rest ih =>
    intro conf wk wk' hI h
    unfold runNext at h
    rcases hN : wk.next el with ⟨wk1, res⟩
    rw [hN] at h
    cases res with
    | error e => simp at h
    | ok b =>
      have hstep := keeperInv_step hI hN
      have hrec := ih (conf || confirmsRAP wk el) wk1 wk' hstep h
      have hrc : runConfirms wk (el :: rest)
          = (confirmsRAP wk el || runConfirms wk1 rest) := by
        simp only [runConfirms]
        rw [hN]
      rw [hrc, ← Bool.or_assoc]
      exact hrec

/-- **C2**. After `New` and after every completed `Next`, the keeper's
`body` is the concatenation of the serializations of a sequence of elements
whose first is a `Cluster` (so `header ‖ body` is a prefix-valid stream at
the element level), the header never changes, and once the first
random-access point is confirmed the leading cluster's span contains, for
each of tracks 1 and 2, a first block which is a keyframe. -/
theorem c2_bootstrap_validity (tokens : List (Except String Elem))
    (wk0 wk : WebmKeeper) (els : List Elem)
    (h0 : newKeeper tokens = .ok wk0)
    (hrun : runNext wk0 els = (wk, .ok ())) :
    wk.header = wk0.header ∧
    ∃ bels : List Elem,
      wk.body = wireAll bels ∧
      (∃ cl bs, bels = cl :: bs ∧ cl.name = "Cluster") ∧
      (runConfirms wk0 els = true →
        firstTrackKeyframe 1 (headSpan bels) ∧ firstTrackKeyframe 2 (headSpan bels)) := by
  have hInv := keeperInv_run els false wk0 wk (keeperInv_init h0) hrun
  rw [Bool.false_or] at hInv
  obtain ⟨front, c, tail, hc, hfront, htail, hbody, hlast, hcnt0, hcnt1, hkf0, hkf1, hconf⟩ := hInv
  constructor
  · have := congrArg Prod.fst hrun
    calc wk.header = (runNext wk0 els).1.header := by rw [this]
    _ = wk0.header := header_runNext wk0 els
  · refine ⟨front ++ c :: tail, ?_, ?_, hconf⟩
    · rw [hbody, wireAll_append, wireAll_cons]
      simp [List.append_assoc]
    · rcases hfront with rfl | ⟨c0, f0, rfl, hc0⟩
      · exact ⟨c, tail, rfl, hc⟩
      · exact ⟨c0, f0 ++ c :: tail, by simp, hc0⟩

/-- Witness for C2: header + Cluster, then a track-1 keyframe SimpleBlock
and a track-2 keyframe SimpleBlock, confirming the first random-access
point. -/
theorem c2_witness :
    ((⟨[1], [2, 3, 4], 0, 1, 1, true, true⟩ : WebmKeeper).header
        = (⟨[1], [2], 0, 0, 0, false, false⟩ : WebmKeeper).header) ∧
    ∃ bels : List Elem,
      (⟨[1], [2, 3, 4], 0, 1, 1, true, true⟩ : WebmKeeper).body = wireAll bels ∧
      (∃ cl bs, bels = cl :: bs ∧ cl.name = "Cluster") ∧
      (runConfirms ⟨[1], [2], 0, 0, 0, false, false⟩
          [⟨"SimpleBlock", 2, [0x81, 0, 0, 0x80], [3]⟩,
           ⟨"SimpleBlock", 2, [0x82, 0, 0, 0x80], [4]⟩] = true →
        firstTrackKeyframe 1 (headSpan bels) ∧ firstTrackKeyframe 2 (headSpan bels)) :=
  c2_bootstrap_validity
    [.ok ⟨"EBML", 0, [], [1]⟩, .ok ⟨"Cluster", 1, [], [2]⟩]
    ⟨[1], [2], 0, 0, 0, false, false⟩
    ⟨[1], [2, 3, 4], 0, 1, 1, true, true⟩
    [⟨"SimpleBlock", 2, [0x81, 0, 0, 0x80], [3]⟩,
     ⟨"SimpleBlock", 2, [0x82, 0, 0, 0x80], [4]⟩]
    rfl rfl

end WebmPub
